import Mathlib

/-!
Shallow embedding of the RAG service's chunking engine
(`app/services/chunker.py`) and query pipeline (`app/api/routes/query.py`).

Python strings are modelled as `List Char` (a Python `str` is a sequence of
code points, and all the string operations used by the chunker — slicing,
`rfind`, `strip`, `len` — act on code points).  The external tiktoken
tokenizer is modelled as an abstract pair of functions `encode`/`decode`;
no property of it is assumed except where a theorem states a hypothesis.
-/

namespace RagSpec

/-- Whitespace characters stripped by Python `str.strip()`: the code
points for which CPython's `Py_UNICODE_ISSPACE` holds — `\t\n\v\f\r`
(09–0D), the information separators 1C–1F, space, NEL (85), NBSP (A0),
Ogham space (1680), the U+2000–200A spaces, line/paragraph separators
(2028/2029), narrow NBSP (202F), medium mathematical space (205F) and
ideographic space (3000). -/
def isPyWS (c : Char) : Bool :=
  (0x09 ≤ c.toNat && c.toNat ≤ 0x0d) || (0x1c ≤ c.toNat && c.toNat ≤ 0x1f) ||
    c.toNat = 0x20 || c.toNat = 0x85 || c.toNat = 0xa0 || c.toNat = 0x1680 ||
    (0x2000 ≤ c.toNat && c.toNat ≤ 0x200a) || c.toNat = 0x2028 || c.toNat = 0x2029 ||
    c.toNat = 0x202f || c.toNat = 0x205f || c.toNat = 0x3000

/-- Python `str.strip()`: drop whitespace from both ends. -/
def pyStrip (l : List Char) : List Char :=
  ((l.dropWhile isPyWS).reverse.dropWhile isPyWS).reverse

/-- Helper for `capRuns`: `k` counts how many copies of `c` of the current
run have already been seen; copies beyond `cap` are dropped. -/
def capRunsGo (c : Char) (cap : Nat) : Nat → List Char → List Char
  | _, [] => []
  | k, x :: xs =>
    if x = c then
      (if k < cap then [c] else []) ++ capRunsGo c cap (k + 1) xs
    else
      x :: capRunsGo c cap 0 xs

/-- Replace every maximal run of the character `c` of length `> cap` by
exactly `cap` copies (shorter runs are left alone).  With `c = '\n'`,
`cap = 2` this is `re.sub(r'\n\x7b3,\x7d', '\n\n', text)`; with `c = ' '`,
`cap = 1` it is `re.sub(r' \x7b2,\x7d', ' ', text)`. -/
def capRuns (c : Char) (cap : Nat) (l : List Char) : List Char :=
  capRunsGo c cap 0 l

/-- Control characters removed by `_clean_text`:
`[\x00-\x08\x0b\x0c\x0e-\x1f\x7f]`. -/
def isCtrl (c : Char) : Bool :=
  c.toNat ≤ 0x08 || c.toNat = 0x0b || c.toNat = 0x0c ||
    (0x0e ≤ c.toNat && c.toNat ≤ 0x1f) || c.toNat = 0x7f

/-- `TextChunker._clean_text`: collapse 3+ newlines to two, collapse 2+
spaces to one, remove control characters, then strip. -/
def cleanText (l : List Char) : List Char :=
  pyStrip ((capRuns ' ' 1 (capRuns '\n' 2 l)).filter (fun c => !(isCtrl c)))

/-- Does the pattern `pat` occur in `s` starting at index `i`? -/
def matchesAt (s pat : List Char) (i : Nat) : Bool :=
  (s.drop i).take pat.length = pat

/-- Python `str.rfind`: the greatest index at which `pat` occurs in `s`,
or `none` when it does not occur. -/
def rfind (s pat : List Char) : Option Nat :=
  ((List.range (s.length + 1)).filter (matchesAt s pat)).getLast?

/-- Python `str.rfind` with its `-1` not-found sentinel. -/
def rfindInt (s pat : List Char) : Int :=
  match rfind s pat with
  | none => -1
  | some i => (i : Int)

/-- The six sentence-terminator patterns of `_adjust_to_sentence_boundary`,
in the order the Python loop iterates over them. -/
def sentenceEndings : List (List Char) :=
  [['.'], ['!'], ['?'], ['.', '\n'], ['!', '\n'], ['?', '\n']]

/-- One iteration of the Python `for ending in sentence_endings` loop:
the accumulator is the pair `(last_ending, ending_len)`. -/
def boundaryStep (ep : List Char) (acc : Int × Nat) (ending : List Char) : Int × Nat :=
  let pos := rfindInt ep ending
  if acc.1 < pos then (pos, ending.length) else acc

/-- `TextChunker._adjust_to_sentence_boundary`.  `cutoff` models
`int(len(text) * 0.8)`, which equals `4 * len / 5` (floor) for every
length below `2 ^ 50` — the double-precision product `len * 0.8` never
strays across an integer boundary at such sizes. -/
def adjustToSentenceBoundary (text : List Char) : List Char :=
  let cutoff := 4 * text.length / 5
  let endPortion := text.drop cutoff
  let r := sentenceEndings.foldl (boundaryStep endPortion) (-1, 0)
  if r.1 ≠ -1 then text.take (cutoff + r.1.toNat + r.2) else text

/-- Abstract model of the tiktoken `cl100k_base` tokenizer. -/
structure Tokenizer where
  encode : List Char → List Nat
  decode : List Nat → List Char

/-- The `TextChunk` dataclass. -/
structure TextChunk where
  content : List Char
  index : Nat
  token_count : Nat
deriving DecidableEq, Repr

/-- The `while start < total_tokens` loop of `TextChunker.chunk_text`,
with explicit fuel: `none` models non-termination of the Python loop. -/
def chunkLoop (tok : Tokenizer) (S O : Nat) (tokens : List Nat) :
    Nat → Nat → Nat → Option (List TextChunk)
  | 0, _, _ => none
  | fuel + 1, start, idx =>
    let total := tokens.length
    if start < total then
      let e := min (start + S) total
      let chunkTokens := (tokens.drop start).take (e - start)
      let decoded := tok.decode chunkTokens
      let adjusted := if e < total then adjustToSentenceBoundary decoded else decoded
      let c : TextChunk := ⟨pyStrip adjusted, idx, (tok.encode adjusted).length⟩
      let start2 := if e < total then e - O else total
      (chunkLoop tok S O tokens fuel start2 (idx + 1)).map (fun rest => c :: rest)
    else
      some []

/-- `TextChunker.chunk_text`.  `S` is `settings.chunk_size`, `O` is
`settings.chunk_overlap`.  The fuel `T + 1` is enough for every
terminating run of the Python loop (the loop makes at most `T + 1`
entries when it terminates at all); `none` models divergence. -/
def chunkText (tok : Tokenizer) (S O : Nat) (text : List Char) : Option (List TextChunk) :=
  if text.all isPyWS then some [] else
  let t := cleanText text
  let tokens := tok.encode t
  let total := tokens.length
  if total ≤ S then some [⟨t, 0, total⟩]
  else chunkLoop tok S O tokens (total + 1) 0 0

/-- A concrete tokenizer for witnesses: one token per character. -/
def charTok : Tokenizer where
  encode l := l.map Char.toNat
  decode l := l.map Char.ofNat

/-- The chunk text the loop body computes for the window starting at
`start` — the value of the Python local `chunk_text` after lines 64–74:
the tokens of `[start, min(start + S, T))` decoded back to text, with
sentence-boundary adjustment applied exactly when the window is not
final. -/
def chunkPre (tok : Tokenizer) (S : Nat) (tokens : List Nat) (start : Nat) : List Char :=
  let e := min (start + S) tokens.length
  let decoded := tok.decode ((tokens.drop start).take (e - start))
  if e < tokens.length then adjustToSentenceBoundary decoded else decoded

/-- Sentence snapping as the specification words it: among the last
occurrences of the six terminator patterns in the trailing 20% window,
select the one whose end-of-terminator position is furthest to the right
and truncate immediately after it; unchanged when none occurs.  Written
from the specification text, for comparison with
`adjustToSentenceBoundary`. -/
def adjustSpecEndmost (text : List Char) : List Char :=
  let cutoff := 4 * text.length / 5
  let ep := text.drop cutoff
  let ends := sentenceEndings.filterMap (fun pat => (rfind ep pat).map (· + pat.length))
  match ends.max? with
  | none => text
  | some m => text.take (cutoff + m)

/-- What the code actually implements: find the rightmost position in the
trailing 20% window at which any of the single characters `.`, `!`, `?`
occurs, and truncate immediately after that one character (a newline
following the terminator is dropped); unchanged when none occurs. -/
def adjustSpecStartmost (text : List Char) : List Char :=
  let cutoff := 4 * text.length / 5
  let ep := text.drop cutoff
  let starts := [['.'], ['!'], ['?']].filterMap (fun pat => rfind ep pat)
  match starts.max? with
  | none => text
  | some m => text.take (cutoff + m + 1)

/-! ### Query pipeline (`app/api/routes/query.py`)

The external services (Voyage embeddings and reranker, Qdrant, Gemini) are
abstract function parameters; the pipeline records which services it
invoked, in order, as a list of events.  `processing_time_ms` (wall-clock
time) is not modelled. -/

/-- A point returned by `vectorstore_service.search`: the payload fields
the route reads. -/
structure SearchResult where
  content : String
  document_id : String
  filename : String
  chunk_index : Nat
deriving DecidableEq, Repr, Inhabited

/-- One entry of the list returned by `reranker_service.rerank`;
`σ` is the type of relevance scores (opaque to the route). -/
structure RerankResult (σ : Type) where
  index : Nat
  document : String
  relevance_score : σ
deriving DecidableEq, Repr

/-- The `SourceChunk` response schema. -/
structure SourceChunk (σ : Type) where
  document_id : String
  filename : String
  chunk_index : Nat
  content : String
  relevance_score : σ
deriving DecidableEq, Repr

/-- The `QueryResponse` schema, without the wall-clock
`processing_time_ms` field. -/
structure QueryResponse (σ : Type) where
  answer : String
  sources : List (SourceChunk σ)
  query : String
deriving DecidableEq, Repr

/-- Service invocations the query route can make, in program order. -/
inductive QueryEvent
  | embedQuery
  | ensureCollection
  | search
  | rerank
  | generateAnswer
deriving DecidableEq, Repr

/-- The fallback answer returned when the vector search yields nothing
(the apostrophe is code point 39). -/
def fallbackAnswer : String :=
  "I couldn" ++ String.singleton (Char.ofNat 39) ++
    "t find any relevant documents to answer your question. Please upload some documents first."

/-- The `query` route handler.  `embed`, `search`, `rerank` and `generate`
are the external services; `searchTopK` and `rerankTopK` are
`settings.search_top_k` and `settings.rerank_top_k`; `reqTopK` is
`request.top_k`.  The returned event list records which services were
invoked.  `search_results[result.index]` is modelled with a default value
for an out-of-range index (Python would raise there). -/
def runQuery {ε σ : Type} (embed : String → ε)
    (search : ε → Nat → List SearchResult)
    (rerank : String → List String → Nat → List (RerankResult σ))
    (generate : String → List (SourceChunk σ) → String)
    (searchTopK rerankTopK : Nat)
    (question : String) (reqTopK : Option Nat) :
    QueryResponse σ × List QueryEvent :=
  let queryEmbedding := embed question
  let searchResults := search queryEmbedding searchTopK
  if searchResults.isEmpty then
    (⟨fallbackAnswer, [], question⟩,
     [.embedQuery, .ensureCollection, .search])
  else
    let documents := searchResults.map (·.content)
    -- Python `request.top_k or settings.rerank_top_k`: `or` falls through on 0
    let topK := match reqTopK with
      | some k => if k ≠ 0 then k else rerankTopK
      | none => rerankTopK
    let reranked := rerank question documents topK
    let sources := reranked.map (fun r =>
      let original := searchResults.getD r.index default
      SourceChunk.mk original.document_id original.filename
        original.chunk_index r.document r.relevance_score)
    let answer := generate question sources
    (⟨answer, sources, question⟩,
     [.embedQuery, .ensureCollection, .search, .rerank, .generateAnswer])

/-! ### Lemmas about `rfind` and `matchesAt` -/

theorem take_one_of_take_succ {α : Type} {l r : List α} {c : α} {n : Nat}
    (h : l.take (n + 1) = c :: r) : l.take 1 = [c] := by
  cases l with
  | nil => simp at h
  | cons x xs =>
    simp only [List.take_succ_cons, List.cons.injEq] at h
    simp [h.1]

theorem getElem?_zero_of_take_one {α : Type} {l : List α} {c : α}
    (h : l.take 1 = [c]) : l[0]? = some c := by
  cases l <;> simp_all

theorem matchesAt_iff {s pat : List Char} {i : Nat} :
    matchesAt s pat i = true ↔ (s.drop i).take pat.length = pat := by
  simp [matchesAt]

theorem matchesAt_cons_head {s : List Char} {c : Char} {r : List Char} {i : Nat}
    (h : matchesAt s (c :: r) i = true) : matchesAt s [c] i = true := by
  rw [matchesAt_iff] at h ⊢
  exact take_one_of_take_succ (l := s.drop i) (n := r.length) h

theorem matchesAt_lt_length {s : List Char} {c : Char} {r : List Char} {i : Nat}
    (h : matchesAt s (c :: r) i = true) : i < s.length := by
  rw [matchesAt_iff] at h
  by_contra hge
  rw [List.drop_eq_nil_of_le (by omega)] at h
  simp at h

theorem matchesAt_single_getElem {s : List Char} {c : Char} {i : Nat}
    (h : matchesAt s [c] i = true) : s[i]? = some c := by
  rw [matchesAt_iff] at h
  have h0 := getElem?_zero_of_take_one (show (s.drop i).take [c].length = [c] from h)
  rw [List.getElem?_drop, Nat.add_zero] at h0
  exact h0

theorem pairwise_lt_getLast?_le {l : List Nat} {i j : Nat}
    (hp : l.Pairwise (· < ·)) (hl : l.getLast? = some i) (hj : j ∈ l) : j ≤ i := by
  obtain ⟨ys, rfl⟩ := List.getLast?_eq_some_iff.mp hl
  rcases List.mem_append.mp hj with hys | hi
  · have := (List.pairwise_append.mp hp).2.2
    exact le_of_lt (this j hys i (by simp))
  · simp only [List.mem_singleton] at hi
    omega

theorem rfind_matches {s pat : List Char} {i : Nat}
    (h : rfind s pat = some i) : matchesAt s pat i = true := by
  unfold rfind at h
  obtain ⟨ys, hys⟩ := List.getLast?_eq_some_iff.mp h
  have hmem : i ∈ (List.range (s.length + 1)).filter (matchesAt s pat) := by
    rw [hys]; simp
  exact (List.mem_filter.mp hmem).2

theorem rfind_ge_of_matches {s pat : List Char} {j : Nat}
    (hj : matchesAt s pat j = true) (hle : j ≤ s.length) :
    ∃ i, rfind s pat = some i ∧ j ≤ i := by
  have hmem : j ∈ (List.range (s.length + 1)).filter (matchesAt s pat) :=
    List.mem_filter.mpr ⟨List.mem_range.mpr (by omega), hj⟩
  have hne : (List.range (s.length + 1)).filter (matchesAt s pat) ≠ [] :=
    List.ne_nil_of_mem hmem
  obtain ⟨i, hi⟩ := Option.ne_none_iff_exists'.mp (mt List.getLast?_eq_none_iff.mp hne)
  refine ⟨i, hi, ?_⟩
  exact pairwise_lt_getLast?_le ((List.pairwise_lt_range _).filter _) hi hmem

theorem rfind_single_mem {s : List Char} {c : Char} {i : Nat}
    (h : rfind s [c] = some i) : c ∈ s := by
  have hm := matchesAt_single_getElem (rfind_matches h)
  exact List.getElem?_mem hm

theorem rfind_none_of_not_mem {s : List Char} {c : Char}
    (h : c ∉ s) : rfind s [c] = none := by
  cases hr : rfind s [c] with
  | none => rfl
  | some i => exact absurd (rfind_single_mem hr) h

theorem neg_one_le_rfindInt (s pat : List Char) : -1 ≤ rfindInt s pat := by
  unfold rfindInt
  split <;> omega

theorem rfindInt_cons_le (s : List Char) (c : Char) (r : List Char) :
    rfindInt s (c :: r) ≤ rfindInt s [c] := by
  cases hq : rfind s (c :: r) with
  | none =>
    have h1 : rfindInt s (c :: r) = -1 := by simp only [rfindInt, hq]
    rw [h1]
    exact neg_one_le_rfindInt s [c]
  | some i =>
    have hm := rfind_matches hq
    have hlt : i < s.length := matchesAt_lt_length hm
    obtain ⟨j, hj, hij⟩ := rfind_ge_of_matches (matchesAt_cons_head hm) (le_of_lt hlt)
    simp only [rfindInt, hq, hj]
    exact_mod_cast hij

/-! ### The terminator-selection fold -/

set_option maxHeartbeats 1000000 in
theorem boundaryFold_eq (ep : List Char) :
    sentenceEndings.foldl (boundaryStep ep) (-1, 0) =
      (max (max (max (-1) (rfindInt ep ['.'])) (rfindInt ep ['!'])) (rfindInt ep ['?']),
        if max (max (max (-1) (rfindInt ep ['.'])) (rfindInt ep ['!'])) (rfindInt ep ['?']) = -1
          then 0 else 1) := by
  have hq1 := rfindInt_cons_le ep '.' ['\n']
  have hq2 := rfindInt_cons_le ep '!' ['\n']
  have hq3 := rfindInt_cons_le ep '?' ['\n']
  have hp1 := neg_one_le_rfindInt ep ['.']
  have hp2 := neg_one_le_rfindInt ep ['!']
  have hp3 := neg_one_le_rfindInt ep ['?']
  simp only [sentenceEndings, List.foldl_cons, List.foldl_nil, boundaryStep]
  set p1 := rfindInt ep ['.'] with hd1
  set p2 := rfindInt ep ['!'] with hd2
  set p3 := rfindInt ep ['?'] with hd3
  set q1 := rfindInt ep ['.', '\n'] with hd4
  set q2 := rfindInt ep ['!', '\n'] with hd5
  set q3 := rfindInt ep ['?', '\n'] with hd6
  simp only [apply_ite Prod.fst, Int.max_def]
  split_ifs <;>
    simp only [Prod.mk.injEq, List.length_cons, List.length_nil, and_true] <;>
    omega

theorem adjust_eq_startmost (text : List Char) :
    adjustToSentenceBoundary text = adjustSpecStartmost text := by
  simp only [adjustToSentenceBoundary, adjustSpecStartmost, boundaryFold_eq]
  rcases h1 : rfind (text.drop (4 * text.length / 5)) ['.'] with _ | a <;>
    rcases h2 : rfind (text.drop (4 * text.length / 5)) ['!'] with _ | b <;>
      rcases h3 : rfind (text.drop (4 * text.length / 5)) ['?'] with _ | c <;>
        simp [rfindInt, h1, h2, h3, List.filterMap_cons, List.max?_cons, List.max?_nil,
            Int.max_def, Nat.max_def] <;>
          split_ifs <;> (try simp only [imp_false, not_false_iff, and_true] at *) <;>
            first
              | rfl
              | (exfalso; omega)
              | (congr 1; omega)

theorem getLast?_take_succ {α : Type} (l : List α) (k : Nat) (h : k < l.length) :
    (l.take (k + 1)).getLast? = l[k]? := by
  rw [List.getLast?_eq_getElem?, List.length_take]
  have hm : min (k + 1) l.length - 1 = k := by omega
  rw [hm, List.getElem?_take]
  simp

/-! ### Claims C3, C4, C10: the sentence-boundary heuristic -/

/-- C4: sentence-boundary snapping never grows a chunk — the snapped text
is at most as long (in characters) as the decoded input text. -/
theorem adjust_never_grows (text : List Char) :
    (adjustToSentenceBoundary text).length ≤ text.length := by
  simp only [adjustToSentenceBoundary]
  split_ifs
  · simp only [List.length_take]
    omega
  · exact le_rfl

/-- C3 (as specified): at a text whose trailing window ends in `.` then a
newline, selecting the terminator with the rightmost END position (the
spec's words, `adjustSpecEndmost`) would keep the newline, but the code
truncates after the `.` alone — the spec's selection rule disagrees with
the code. -/
theorem boundary_select_cex :
    adjustToSentenceBoundary ("abcdefgh.\n".toList) = ("abcdefgh.".toList) ∧
    adjustSpecEndmost ("abcdefgh.\n".toList) = ("abcdefgh.\n".toList) ∧
    adjustToSentenceBoundary ("abcdefgh.\n".toList) ≠ adjustSpecEndmost ("abcdefgh.\n".toList) := by
  refine ⟨by decide, by decide, by decide⟩

/-- C3 (amended): the snapping examines the last 20% of the text and
truncates immediately after the occurrence of `.`, `!` or `?` whose match
START position is furthest to the right, keeping exactly the one
terminator character (never a trailing newline); if none of the three
occurs there, the text is unchanged. -/
theorem boundary_snap_startmost (text : List Char) :
    adjustToSentenceBoundary text = adjustSpecStartmost text :=
  adjust_eq_startmost text

/-- C10: the adjusted text either equals the input or ends with one of the
single characters `.`, `!`, `?` — the recorded terminator length is always
1, so the result never ends with a newline added by a two-character
pattern. -/
theorem adjust_unchanged_or_ends_terminator (text : List Char) :
    adjustToSentenceBoundary text = text ∨
      (adjustToSentenceBoundary text).getLast? = some '.' ∨
      (adjustToSentenceBoundary text).getLast? = some '!' ∨
      (adjustToSentenceBoundary text).getLast? = some '?' := by
  rw [adjust_eq_startmost]
  simp only [adjustSpecStartmost]
  cases hm : ([['.'], ['!'], ['?']].filterMap
      (fun pat => rfind (text.drop (4 * text.length / 5)) pat)).max? with
  | none =>
    left
    simp only [hm]
  | some m =>
    right
    simp only [hm]
    have hmem := List.max?_mem (fun a b => max_choice a b) hm
    rcases List.mem_filterMap.mp hmem with ⟨pat, hpat, hr⟩
    have hpat3 : pat = ['.'] ∨ pat = ['!'] ∨ pat = ['?'] := by simpa using hpat
    have hcases : ∃ c, pat = [c] ∧ (c = '.' ∨ c = '!' ∨ c = '?') := by
      rcases hpat3 with h | h | h
      · exact ⟨'.', h, Or.inl rfl⟩
      · exact ⟨'!', h, Or.inr (Or.inl rfl)⟩
      · exact ⟨'?', h, Or.inr (Or.inr rfl)⟩
    obtain ⟨c, rfl, hc⟩ := hcases
    have hel : (text.drop (4 * text.length / 5))[m]? = some c :=
      matchesAt_single_getElem (rfind_matches hr)
    have hmlt : m < (text.drop (4 * text.length / 5)).length :=
      (List.getElem?_eq_some_iff.mp hel).1
    have hlt : 4 * text.length / 5 + m < text.length := by
      rw [List.length_drop] at hmlt
      omega
    have htext : text[4 * text.length / 5 + m]? = some c := by
      rw [← List.getElem?_drop]
      exact hel
    rw [getLast?_take_succ text (4 * text.length / 5 + m) hlt, htext]
    rcases hc with h | h | h
    · exact Or.inl (by rw [h])
    · exact Or.inr (Or.inl (by rw [h]))
    · exact Or.inr (Or.inr (by rw [h]))

/-! ### Claims C2, C6, C7, C8: the sliding-window loop -/

/-- C6: empty or whitespace-only input produces the empty chunk sequence
(and no error: the result is `some`, not the divergence marker `none`). -/
theorem chunkText_whitespace (tok : Tokenizer) (S O : Nat) (text : List Char)
    (h : ∀ c ∈ text, isPyWS c = true) :
    chunkText tok S O text = some [] := by
  unfold chunkText
  rw [if_pos (List.all_eq_true.mpr h)]

/-- Witness for C6: a space, a no-break space (U+00A0) and a file
separator (U+001C) — all whitespace for `str.strip()` — produce no
chunks. -/
theorem chunkText_whitespace_witness :
    (∀ c ∈ [' ', Char.ofNat 0xa0, Char.ofNat 0x1c], isPyWS c = true) ∧
      chunkText charTok 1000 100 [' ', Char.ofNat 0xa0, Char.ofNat 0x1c] = some [] :=
  ⟨by decide,
    chunkText_whitespace charTok 1000 100 [' ', Char.ofNat 0xa0, Char.ofNat 0x1c]
      (by decide)⟩

/-- C2 (as stated) fails on whitespace-only input: a single space
normalizes to the empty text, which tokenizes to `0 ≤ S` tokens, yet the
chunker returns the empty sequence, not exactly one chunk. -/
theorem single_chunk_cex :
    (charTok.encode (cleanText [' '])).length ≤ 1000 ∧
    chunkText charTok 1000 100 [' '] = some [] ∧
    ∀ c : TextChunk, chunkText charTok 1000 100 [' '] ≠ some [c] := by
  refine ⟨by decide, by decide, ?_⟩
  intro c h
  rw [show chunkText charTok 1000 100 [' '] = some [] from by decide] at h
  simp at h

/-- C2 (amended): for input that is not whitespace-only, if the normalized
text tokenizes to at most `S` tokens then the result is exactly one chunk
holding the entire normalized text at index 0 with its full token count. -/
theorem chunkText_single_chunk (tok : Tokenizer) (S O : Nat) (text : List Char)
    (hws : ¬ text.all isPyWS = true)
    (hle : (tok.encode (cleanText text)).length ≤ S) :
    chunkText tok S O text =
      some [⟨cleanText text, 0, (tok.encode (cleanText text)).length⟩] := by
  simp only [chunkText, if_neg hws, if_pos hle]

/-- Witness for C2 (amended) at `ab` followed by a no-break space: the
normalization strips the trailing U+00A0, so the single chunk holds `ab`
with 2 tokens. -/
theorem chunkText_single_chunk_witness :
    ¬ (['a', 'b', Char.ofNat 0xa0].all isPyWS = true) ∧
    (charTok.encode (cleanText ['a', 'b', Char.ofNat 0xa0])).length ≤ 1000 ∧
    cleanText ['a', 'b', Char.ofNat 0xa0] = ['a', 'b'] ∧
    chunkText charTok 1000 100 ['a', 'b', Char.ofNat 0xa0] =
      some [⟨cleanText ['a', 'b', Char.ofNat 0xa0], 0,
        (charTok.encode (cleanText ['a', 'b', Char.ofNat 0xa0])).length⟩] :=
  ⟨by decide, by decide, by decide,
    chunkText_single_chunk charTok 1000 100 ['a', 'b', Char.ofNat 0xa0]
      (by decide) (by decide)⟩

theorem chunkLoop_isSome (tok : Tokenizer) (S O : Nat) (tokens : List Nat) (hOS : O < S) :
    ∀ fuel start idx, tokens.length - start < fuel →
      (chunkLoop tok S O tokens fuel start idx).isSome = true := by
  intro fuel
  induction fuel with
  | zero => intro start idx h; omega
  | succ f ih =>
    intro start idx h
    simp only [chunkLoop]
    by_cases hs : start < tokens.length
    · rw [if_pos hs]
      rw [Option.isSome_map']
      by_cases he : min (start + S) tokens.length < tokens.length
      · rw [if_pos he]
        exact ih _ _ (by omega)
      · rw [if_neg he]
        exact ih _ _ (by omega)
    · rw [if_neg hs]
      rfl

/-- C8: with overlap strictly below the chunk size, the sliding-window
loop terminates on every input — `chunk_text` returns a result (the
`none` value that models a non-terminating Python loop does not occur). -/
theorem chunkText_terminates (tok : Tokenizer) (S O : Nat) (text : List Char)
    (hOS : O < S) :
    ∃ cs, chunkText tok S O text = some cs := by
  simp only [chunkText]
  split_ifs with h1 h2
  · exact ⟨[], rfl⟩
  · exact ⟨_, rfl⟩
  · exact Option.isSome_iff_exists.mp
      (chunkLoop_isSome tok S O (tok.encode (cleanText text)) hOS _ 0 0 (by omega))

/-- Witness for C8 with overlap 1 below size 4. -/
theorem chunkText_terminates_witness :
    1 < 4 ∧ ∃ cs, chunkText charTok 4 1 ['a', 'b', 'c', 'd', 'e', 'f'] = some cs :=
  ⟨by decide, chunkText_terminates charTok 4 1 ['a', 'b', 'c', 'd', 'e', 'f'] (by decide)⟩

theorem chunkLoop_indices (tok : Tokenizer) (S O : Nat) (tokens : List Nat) :
    ∀ fuel start idx cs, chunkLoop tok S O tokens fuel start idx = some cs →
      cs.map (fun c => c.index) = List.range' idx cs.length := by
  intro fuel
  induction fuel with
  | zero => intro start idx cs h; simp [chunkLoop] at h
  | succ f ih =>
    intro start idx cs h
    simp only [chunkLoop] at h
    by_cases hs : start < tokens.length
    · rw [if_pos hs] at h
      obtain ⟨rest, hrest, hcs⟩ := Option.map_eq_some'.mp h
      subst hcs
      simp only [List.map_cons, List.length_cons, List.range'_succ]
      rw [ih _ _ _ hrest]
    · rw [if_neg hs] at h
      cases h
      simp

/-- C7: the chunk `index` values are exactly `0, 1, 2, …` in emission
order — contiguous with no gaps or repeats. -/
theorem chunkText_indices (tok : Tokenizer) (S O : Nat) (text : List Char)
    (cs : List TextChunk) (h : chunkText tok S O text = some cs) :
    cs.map (fun c => c.index) = List.range cs.length := by
  simp only [chunkText] at h
  split_ifs at h with h1 h2
  · cases h; rfl
  · cases h; rfl
  · rw [List.range_eq_range']
    exact chunkLoop_indices tok S O _ _ 0 0 cs h

/-- Witness for C7 at a three-chunk example. -/
theorem chunkText_indices_witness :
    chunkText charTok 3 1 ['a', 'b', 'c', 'd', 'e', 'f', 'g'] =
      some [⟨['a', 'b', 'c'], 0, 3⟩, ⟨['c', 'd', 'e'], 1, 3⟩, ⟨['e', 'f', 'g'], 2, 3⟩] ∧
    [⟨['a', 'b', 'c'], 0, 3⟩, (⟨['c', 'd', 'e'], 1, 3⟩ : TextChunk),
        ⟨['e', 'f', 'g'], 2, 3⟩].map (fun c => c.index) =
      List.range [⟨['a', 'b', 'c'], 0, 3⟩, (⟨['c', 'd', 'e'], 1, 3⟩ : TextChunk),
        ⟨['e', 'f', 'g'], 2, 3⟩].length :=
  ⟨by decide, chunkText_indices charTok 3 1 ['a', 'b', 'c', 'd', 'e', 'f', 'g'] _ (by decide)⟩

/-! ### Claim C5: `token_count` versus the trimmed `content` -/

theorem dropWhile_eq_self_of_head (p : Char → Bool) (l : List Char)
    (h : ∀ x ∈ l.head?, p x = false) : l.dropWhile p = l := by
  cases l with
  | nil => rfl
  | cons x xs =>
    rw [List.dropWhile_cons, if_neg]
    simp [h x (by simp)]

theorem chunkLoop_token_count (tok : Tokenizer) (S O : Nat) (tokens : List Nat) :
    ∀ fuel start idx cs, chunkLoop tok S O tokens fuel start idx = some cs →
      ∀ c ∈ cs, ∃ s, s < tokens.length ∧
        c.content = pyStrip (chunkPre tok S tokens s) ∧
        c.token_count = (tok.encode (chunkPre tok S tokens s)).length := by
  intro fuel
  induction fuel with
  | zero => intro start idx cs h; simp [chunkLoop] at h
  | succ f ih =>
    intro start idx cs h
    simp only [chunkLoop] at h
    by_cases hs : start < tokens.length
    · rw [if_pos hs] at h
      obtain ⟨rest, hrest, hcs⟩ := Option.map_eq_some'.mp h
      subst hcs
      intro c hc
      rcases List.mem_cons.mp hc with hc | hc
      · subst hc
        exact ⟨start, hs, rfl, rfl⟩
      · exact ih _ _ _ hrest c hc
    · rw [if_neg hs] at h
      cases h
      intro c hc
      simp at hc

/-- C5 (as stated) fails: a non-final chunk whose decoded window ends in a
space records the token count of the untrimmed text (4 tokens for
`abc␣`), not the token count of its trimmed `content` (3 tokens for
`abc`). -/
theorem token_count_cex :
    chunkText charTok 4 1 ['a', 'b', 'c', ' ', 'd', 'e', 'f', 'g'] =
      some [⟨['a', 'b', 'c'], 0, 4⟩, ⟨['d', 'e', 'f'], 1, 4⟩, ⟨['f', 'g'], 2, 2⟩] ∧
    ¬ ∀ c ∈ [⟨['a', 'b', 'c'], 0, 4⟩, (⟨['d', 'e', 'f'], 1, 4⟩ : TextChunk),
          ⟨['f', 'g'], 2, 2⟩],
        c.token_count = (charTok.encode c.content).length := by
  refine ⟨by decide, by decide⟩

/-- C5 (amended): every emitted chunk's `token_count` is the tokenizer's
count of the chunk's text after boundary adjustment but BEFORE the
whitespace trim, and `content` is the whitespace-trimmed form of that
same text.  Concretely: in the single-chunk case that text is the whole
normalized text; otherwise it is `chunkPre` for some window start
`s < T` — the decoded token window `[s, min(s + S, T))`,
boundary-adjusted exactly when it is not final.  `token_count` can
therefore exceed the token count of `content`. -/
theorem chunk_token_count_pre_trim (tok : Tokenizer) (S O : Nat) (text : List Char)
    (cs : List TextChunk) (h : chunkText tok S O text = some cs) :
    ∀ c ∈ cs,
      (c.content = cleanText text ∧
        c.token_count = (tok.encode (cleanText text)).length) ∨
      ∃ s, s < (tok.encode (cleanText text)).length ∧
        c.content = pyStrip (chunkPre tok S (tok.encode (cleanText text)) s) ∧
        c.token_count =
          (tok.encode (chunkPre tok S (tok.encode (cleanText text)) s)).length := by
  simp only [chunkText] at h
  split_ifs at h with h1 h2
  · cases h
    intro c hc
    simp at hc
  · cases h
    intro c hc
    simp only [List.mem_singleton] at hc
    subst hc
    exact Or.inl ⟨rfl, rfl⟩
  · intro c hc
    exact Or.inr (chunkLoop_token_count tok S O _ _ 0 0 cs h c hc)

/-- Witness for C5 (amended) at a concrete three-chunk run. -/
theorem chunk_token_count_pre_trim_witness :
    chunkText charTok 4 1 ['a', 'b', 'c', ' ', 'd', 'e', 'f', 'g'] =
      some [⟨['a', 'b', 'c'], 0, 4⟩, ⟨['d', 'e', 'f'], 1, 4⟩, ⟨['f', 'g'], 2, 2⟩] ∧
    ∀ c ∈ [⟨['a', 'b', 'c'], 0, 4⟩, (⟨['d', 'e', 'f'], 1, 4⟩ : TextChunk),
        ⟨['f', 'g'], 2, 2⟩],
      (c.content = cleanText ['a', 'b', 'c', ' ', 'd', 'e', 'f', 'g'] ∧
        c.token_count =
          (charTok.encode (cleanText ['a', 'b', 'c', ' ', 'd', 'e', 'f', 'g'])).length) ∨
      ∃ s, s < (charTok.encode (cleanText ['a', 'b', 'c', ' ', 'd', 'e', 'f', 'g'])).length ∧
        c.content = pyStrip (chunkPre charTok 4
          (charTok.encode (cleanText ['a', 'b', 'c', ' ', 'd', 'e', 'f', 'g'])) s) ∧
        c.token_count = (charTok.encode (chunkPre charTok 4
          (charTok.encode (cleanText ['a', 'b', 'c', ' ', 'd', 'e', 'f', 'g'])) s)).length :=
  ⟨by decide,
    chunk_token_count_pre_trim charTok 4 1 ['a', 'b', 'c', ' ', 'd', 'e', 'f', 'g'] _
      (by decide)⟩

/-! ### Claim C1: the 2500-token window example -/

theorem adjust_of_no_terminator (l : List Char)
    (h1 : '.' ∉ l) (h2 : '!' ∉ l) (h3 : '?' ∉ l) :
    adjustToSentenceBoundary l = l := by
  rw [adjust_eq_startmost]
  simp only [adjustSpecStartmost]
  have r1 : rfind (l.drop (4 * l.length / 5)) ['.'] = none :=
    rfind_none_of_not_mem (fun hm => h1 (List.mem_of_mem_drop hm))
  have r2 : rfind (l.drop (4 * l.length / 5)) ['!'] = none :=
    rfind_none_of_not_mem (fun hm => h2 (List.mem_of_mem_drop hm))
  have r3 : rfind (l.drop (4 * l.length / 5)) ['?'] = none :=
    rfind_none_of_not_mem (fun hm => h3 (List.mem_of_mem_drop hm))
  simp [r1, r2, r3]

theorem chunkLoop_mid (tok : Tokenizer) (S O : Nat) (tokens : List Nat)
    (fuel start idx : Nat) (h : start + S < tokens.length) :
    chunkLoop tok S O tokens (fuel + 1) start idx =
      (chunkLoop tok S O tokens fuel (start + S - O) (idx + 1)).map
        (fun rest =>
          ⟨pyStrip (adjustToSentenceBoundary (tok.decode ((tokens.drop start).take S))),
            idx,
            (tok.encode
              (adjustToSentenceBoundary (tok.decode ((tokens.drop start).take S)))).length⟩
            :: rest) := by
  have hs : start < tokens.length := by omega
  have hmin : min (start + S) tokens.length = start + S := by omega
  simp only [chunkLoop, if_pos hs, hmin, if_pos h, Nat.add_sub_cancel_left]

theorem chunkLoop_last (tok : Tokenizer) (S O : Nat) (tokens : List Nat)
    (fuel start idx : Nat) (h1 : start < tokens.length) (h2 : tokens.length ≤ start + S) :
    chunkLoop tok S O tokens (fuel + 2) start idx =
      some [⟨pyStrip (tok.decode (tokens.drop start)), idx,
        (tok.encode (tok.decode (tokens.drop start))).length⟩] := by
  have hmin : min (start + S) tokens.length = tokens.length := by omega
  have htake : (tokens.drop start).take (tokens.length - start) = tokens.drop start := by
    rw [← List.length_drop]
    exact List.take_length _
  simp only [chunkLoop, if_pos h1, hmin, lt_self_iff_false, if_false, htake,
    lt_irrefl, Option.map_some']

/-- C1: with `S = 1000`, `O = 100` and a non-whitespace-only input whose
normalized text tokenizes to 2500 tokens, if the decoded texts of the two
non-final windows contain no sentence-terminator character then chunking
yields exactly 3 chunks built from the token windows `[0, 1000)`,
`[900, 1900)` and `[1800, 2500)` with indices 0, 1, 2, each decoded,
boundary-UNadjusted, stripped and re-encoded for its token count. -/
theorem chunk_windows_2500 (tok : Tokenizer) (text : List Char)
    (hws : ¬ text.all isPyWS = true)
    (hT : (tok.encode (cleanText text)).length = 2500)
    (h1 : '.' ∉ tok.decode ((tok.encode (cleanText text)).take 1000) ∧
          '!' ∉ tok.decode ((tok.encode (cleanText text)).take 1000) ∧
          '?' ∉ tok.decode ((tok.encode (cleanText text)).take 1000))
    (h2 : '.' ∉ tok.decode (((tok.encode (cleanText text)).drop 900).take 1000) ∧
          '!' ∉ tok.decode (((tok.encode (cleanText text)).drop 900).take 1000) ∧
          '?' ∉ tok.decode (((tok.encode (cleanText text)).drop 900).take 1000)) :
    chunkText tok 1000 100 text =
      some [⟨pyStrip (tok.decode ((tok.encode (cleanText text)).take 1000)), 0,
              (tok.encode (tok.decode ((tok.encode (cleanText text)).take 1000))).length⟩,
            ⟨pyStrip (tok.decode (((tok.encode (cleanText text)).drop 900).take 1000)), 1,
              (tok.encode
                (tok.decode (((tok.encode (cleanText text)).drop 900).take 1000))).length⟩,
            ⟨pyStrip (tok.decode ((tok.encode (cleanText text)).drop 1800)), 2,
              (tok.encode (tok.decode ((tok.encode (cleanText text)).drop 1800))).length⟩] := by
  simp only [chunkText, if_neg hws]
  rw [if_neg (show ¬ ((tok.encode (cleanText text)).length ≤ 1000) from by omega)]
  rw [chunkLoop_mid tok 1000 100 (tok.encode (cleanText text))
    (tok.encode (cleanText text)).length 0 0 (by omega)]
  rw [show (0 + 1000 - 100 : Nat) = 900 from by norm_num, hT,
    show (2500 : Nat) = 2499 + 1 from by norm_num]
  rw [chunkLoop_mid tok 1000 100 (tok.encode (cleanText text)) 2499 900 1 (by omega)]
  rw [show (900 + 1000 - 100 : Nat) = 1800 from by norm_num,
    show (2499 : Nat) = 2497 + 2 from by norm_num]
  rw [chunkLoop_last tok 1000 100 (tok.encode (cleanText text)) 2497 1800 2
    (by omega) (by omega)]
  simp only [Option.map_some', List.drop_zero]
  rw [adjust_of_no_terminator _ h1.1 h1.2.1 h1.2.2,
    adjust_of_no_terminator _ h2.1 h2.2.1 h2.2.2]

theorem capRunsGo_of_ne (c : Char) (cap : Nat) (a : Char) (ha : a ≠ c) :
    ∀ n k, capRunsGo c cap k (List.replicate n a) = List.replicate n a := by
  intro n
  induction n with
  | zero => intro k; rfl
  | succ m ih =>
    intro k
    rw [List.replicate_succ]
    simp only [capRunsGo, if_neg ha, ih 0]

theorem dropWhile_replicate_a (m : Nat) :
    (List.replicate m 'a').dropWhile isPyWS = List.replicate m 'a' := by
  apply dropWhile_eq_self_of_head
  cases m with
  | zero => simp
  | succ k =>
    intro x hx
    rw [List.replicate_succ] at hx
    simp only [List.head?_cons, Option.mem_def, Option.some.injEq] at hx
    subst hx
    decide

theorem pyStrip_replicate_a (n : Nat) :
    pyStrip (List.replicate n 'a') = List.replicate n 'a' := by
  unfold pyStrip
  rw [dropWhile_replicate_a, List.reverse_replicate, dropWhile_replicate_a,
    List.reverse_replicate]

theorem cleanText_replicate_a (n : Nat) :
    cleanText (List.replicate n 'a') = List.replicate n 'a' := by
  unfold cleanText capRuns
  rw [capRunsGo_of_ne '\n' 2 'a' (by decide) n 0, capRunsGo_of_ne ' ' 1 'a' (by decide) n 0,
    List.filter_replicate]
  rw [if_pos (by decide)]
  exact pyStrip_replicate_a n

theorem charTok_encode_rep (n : Nat) :
    charTok.encode (List.replicate n 'a') = List.replicate n 97 := by
  show List.map Char.toNat (List.replicate n 'a') = _
  rw [List.map_replicate]
  rfl

theorem charTok_decode_rep (n : Nat) :
    charTok.decode (List.replicate n 97) = List.replicate n 'a' := by
  show List.map Char.ofNat (List.replicate n 97) = _
  rw [List.map_replicate]

/-- Witness for C1: 2500 repeated `a` characters produce exactly the three
chunks `(content = 1000 a's, index 0, 1000 tokens)`,
`(1000 a's, 1, 1000)`, `(700 a's, 2, 700)`. -/
theorem chunk_windows_2500_witness :
    ¬ ((List.replicate 2500 'a').all isPyWS = true) ∧
    (charTok.encode (cleanText (List.replicate 2500 'a'))).length = 2500 ∧
    chunkText charTok 1000 100 (List.replicate 2500 'a') =
      some [⟨List.replicate 1000 'a', 0, 1000⟩,
            ⟨List.replicate 1000 'a', 1, 1000⟩,
            ⟨List.replicate 700 'a', 2, 700⟩] := by
  have henc : charTok.encode (cleanText (List.replicate 2500 'a')) =
      List.replicate 2500 97 := by
    rw [cleanText_replicate_a, charTok_encode_rep]
  have hw1 : (charTok.encode (cleanText (List.replicate 2500 'a'))).take 1000 =
      List.replicate 1000 97 := by
    rw [henc, List.take_replicate]
    norm_num
  have hw2 : ((charTok.encode (cleanText (List.replicate 2500 'a'))).drop 900).take 1000 =
      List.replicate 1000 97 := by
    rw [henc, List.drop_replicate, List.take_replicate]
    norm_num
  have hw3 : (charTok.encode (cleanText (List.replicate 2500 'a'))).drop 1800 =
      List.replicate 700 97 := by
    rw [henc, List.drop_replicate]
  have hws : ¬ ((List.replicate 2500 'a').all isPyWS = true) := by
    simp only [List.all_eq_true]
    intro hall
    have := hall 'a' (by rw [List.mem_replicate]; exact ⟨by norm_num, rfl⟩)
    exact absurd this (by decide)
  have hT : (charTok.encode (cleanText (List.replicate 2500 'a'))).length = 2500 := by
    rw [henc, List.length_replicate]
  have hnomem : ∀ (k : Nat) (c : Char), c ≠ 'a' →
      c ∉ charTok.decode (List.replicate k 97) := by
    intro k c hc hmem
    rw [charTok_decode_rep, List.mem_replicate] at hmem
    exact hc hmem.2
  refine ⟨hws, hT, ?_⟩
  have hmain := chunk_windows_2500 charTok (List.replicate 2500 'a') hws hT
    ⟨by rw [hw1]; exact hnomem 1000 '.' (by decide),
     by rw [hw1]; exact hnomem 1000 '!' (by decide),
     by rw [hw1]; exact hnomem 1000 '?' (by decide)⟩
    ⟨by rw [hw2]; exact hnomem 1000 '.' (by decide),
     by rw [hw2]; exact hnomem 1000 '!' (by decide),
     by rw [hw2]; exact hnomem 1000 '?' (by decide)⟩
  rw [hmain, hw1, hw2, hw3]
  simp only [charTok_decode_rep, pyStrip_replicate_a, charTok_encode_rep,
    List.length_replicate]

/-! ### Claim C9: query against an empty store -/

/-- C9: when the vector search returns no candidates, the pipeline answers
with the fixed fallback text and an empty source list, and neither the
reranker nor the answer generator is invoked. -/
theorem query_empty_store {ε σ : Type} (embed : String → ε)
    (search : ε → Nat → List SearchResult)
    (rerank : String → List String → Nat → List (RerankResult σ))
    (generate : String → List (SourceChunk σ) → String)
    (searchTopK rerankTopK : Nat) (question : String) (reqTopK : Option Nat)
    (h : search (embed question) searchTopK = []) :
    runQuery embed search rerank generate searchTopK rerankTopK question reqTopK =
      (⟨fallbackAnswer, [], question⟩, [.embedQuery, .ensureCollection, .search]) ∧
    QueryEvent.rerank ∉
      (runQuery embed search rerank generate searchTopK rerankTopK question reqTopK).2 ∧
    QueryEvent.generateAnswer ∉
      (runQuery embed search rerank generate searchTopK rerankTopK question reqTopK).2 := by
  have hrun : runQuery embed search rerank generate searchTopK rerankTopK question reqTopK =
      (⟨fallbackAnswer, [], question⟩, [.embedQuery, .ensureCollection, .search]) := by
    simp only [runQuery]
    rw [h]
    rfl
  refine ⟨hrun, ?_, ?_⟩ <;> rw [hrun] <;> simp

/-- Witness for C9 with trivially-empty services. -/
theorem query_empty_store_witness :
    (fun _ _ => ([] : List SearchResult)) ((fun _ => ()) "what is this") 50 = [] ∧
    runQuery (σ := Unit) (fun _ => ()) (fun _ _ => []) (fun _ _ _ => [])
        (fun _ _ => "unused") 50 12 "what is this" none =
      (⟨fallbackAnswer, [], "what is this"⟩, [.embedQuery, .ensureCollection, .search]) :=
  ⟨rfl, (query_empty_store (fun _ => ()) (fun _ _ => []) (fun _ _ _ => [])
    (fun _ _ => "unused") 50 12 "what is this" none rfl).1⟩

end RagSpec
